import Mathlib

/-!
Shallow embedding of the streaming core of `src/main.py` (subreddit data
downloader): `process_comments_in_chunks` (the Comment Grouper) and
`match_posts_with_top_comments` (the Post-Comment Joiner), together with
proofs of the specification's claims about them.

Machine model:
* one line of an input file is either malformed JSON (`json.loads` raises
  `json.JSONDecodeError`, which the source catches) or a parsed record
  restricted to the fields the source reads;
* an input file is `Option (List line)`: `none` models `FileNotFoundError`
  on `open`, which the source catches;
* a Python exception the source does not catch (a `TypeError` from
  `"[deleted]" not in body` when `body` is `None`) is modelled as a `fatal`
  component of the result: batches yielded before the raise are kept, the
  final flush is skipped, and the error propagates to the caller.
-/

namespace SubredditDL

/-- A retained comment as the Grouper stores it:
`{"body": comment.get("body"), "score": comment.get("score", 0)}`
(src/main.py lines 43-46). -/
structure Comment where
  body : String
  score : Int
deriving DecidableEq, Repr

/-- A parsed comments-file JSON record, restricted to the fields the source
reads; `none` models a missing field (`dict.get` returning `None`). -/
structure CommentRec where
  link_id : Option String
  parent_id : Option String
  body : Option String
  score : Option Int
deriving DecidableEq, Repr

/-- One line of the comments file. -/
inductive CLine where
  | malformed
  | obj (r : CommentRec)
deriving DecidableEq, Repr

/-- A parsed posts-file JSON record, restricted to the fields the source
reads. -/
structure PostRec where
  name : Option String
  title : Option String
  selftext : Option String
  score : Option Int
deriving DecidableEq, Repr

/-- One line of the posts file. -/
inductive PLine where
  | malformed
  | obj (r : PostRec)
deriving DecidableEq, Repr

/-- One CSV output row (src/main.py lines 74-81).  `post_score` is
`post.get("score")` — the raw lookup, without the default used in the
filter — hence an `Option`. -/
structure Row where
  title : String
  content : String
  post_score : Option Int
  top_comment : String
  comment_score : Int
  subreddit : String
deriving DecidableEq, Repr

/-- An uncaught Python exception of the modelled fragment. -/
inductive PyErr where
  | typeError
deriving DecidableEq, Repr

/-- Python truthiness of an optional string, as in
`if link_id and parent_id` : `None` and `""` are falsy. -/
def pyTruthy : Option String → Bool
  | none => false
  | some s => !s.toList.isEmpty

/-- Whether the first character list starts the second. -/
def chStarts : List Char → List Char → Bool
  | [], _ => true
  | _ :: _, [] => false
  | a :: as, b :: bs => a == b && chStarts as bs

/-- Whether the first character list occurs contiguously inside the
second. -/
def chSub (needle : List Char) : List Char → Bool
  | [] => chStarts needle []
  | b :: bs => chStarts needle (b :: bs) || chSub needle bs

/-- Python substring containment `needle in hay` on strings. -/
def pyIn (needle hay : String) : Bool :=
  chSub needle.toList hay.toList

/-- The presence and prefix checks of src/main.py line 40:
`if link_id and parent_id and parent_id.startswith("t3_")`. -/
def passesChecks (r : CommentRec) : Bool :=
  pyTruthy r.link_id && pyTruthy r.parent_id
    && chStarts "t3_".toList (r.parent_id.getD "").toList

/-- Dictionary lookup with default `[]` (`defaultdict(list)` read).
`comments_by_post` and the Joiner's index are association lists in
key-insertion order, the iteration order of a Python dict. -/
def bget : List (String × List Comment) → String → List Comment
  | [], _ => []
  | (k, v) :: t, key => if k = key then v else bget t key

/-- Dictionary write: replace the first entry of the key, or append a new
entry at the end (insertion order of a Python dict). -/
def bset : List (String × List Comment) → String → List Comment →
    List (String × List Comment)
  | [], key, v => [(key, v)]
  | (k, w) :: t, key, v =>
    if k = key then (key, v) :: t else (k, w) :: bset t key v

/-- A bare `defaultdict(list)` item access for a key that may be absent
(`len(comments_by_post[link_id])`): creates an empty entry if missing. -/
def btouch : List (String × List Comment) → String → List (String × List Comment)
  | [], key => [(key, [])]
  | (k, w) :: t, key =>
    if k = key then (k, w) :: t else (k, w) :: btouch t key

/-- Dictionary key membership `post_id in comments_by_post` (a plain `in`
test does not create a `defaultdict` entry). -/
def bhas : List (String × List Comment) → String → Bool
  | [], _ => false
  | (k, _) :: t, key => k = key || bhas t key

/-- The tombstone filter and append of src/main.py lines 42-46: append
`{body, score}` to the key's bucket when the body holds neither marker;
either way the later `comments_by_post[link_id]` access has created the
key's entry. -/
def appendAttempt (b : String) (sc : Int) (lid : String)
    (bs : List (String × List Comment)) : List (String × List Comment) :=
  if !pyIn "[deleted]" b && !pyIn "[removed]" b then
    bset bs lid (bget bs lid ++ [⟨b, sc⟩])
  else
    btouch bs lid

/-- The batch-threshold check of src/main.py lines 47-49, run after the
append attempt: if the key's bucket has reached `batch_size` entries,
yield `(link_id, bucket)` and reset the bucket to `[]`. -/
def flushStep (batch_size : Nat) (lid : String)
    (bs : List (String × List Comment)) :
    List (String × List Comment) × List (String × List Comment) :=
  if batch_size ≤ (bget bs lid).length then
    ([(lid, bget bs lid)], bset bs lid [])
  else
    ([], bs)

/-- Process one comments-file line (src/main.py lines 36-51): the batches
this line yields, the updated buckets, and the uncaught exception if the
line raises one.  A malformed line's `json.JSONDecodeError` is caught and
the line skipped; a record whose `body` is absent reaches
`"[deleted]" not in None` and raises an uncaught `TypeError`. -/
def stepLine (batch_size : Nat) (l : CLine) (bs : List (String × List Comment)) :
    List (String × List Comment) × List (String × List Comment) × Option PyErr :=
  match l with
  | .malformed => ([], bs, none)
  | .obj r =>
    if passesChecks r then
      let lid := r.link_id.getD ""
      match r.body with
      | none => ([], bs, some .typeError)
      | some b =>
        let f := flushStep batch_size lid (appendAttempt b (r.score.getD 0) lid bs)
        (f.1, f.2, none)
    else ([], bs, none)

/-- The Grouper's main loop over the comments file: all batches yielded in
order, the final buckets, and the first uncaught exception (which stops the
loop). -/
def runLines (batch_size : Nat) : List CLine → List (String × List Comment) →
    List (String × List Comment) × List (String × List Comment) × Option PyErr
  | [], bs => ([], bs, none)
  | l :: ls, bs =>
    let s := stepLine batch_size l bs
    match s.2.2 with
    | some e => (s.1, s.2.1, some e)
    | none =>
      let r := runLines batch_size ls s.2.1
      (s.1 ++ r.1, r.2.1, r.2.2)

/-- Stream-end flush (src/main.py lines 52-54): yield every non-empty
remaining bucket, in dictionary iteration order. -/
def finalFlush (bs : List (String × List Comment)) : List (String × List Comment) :=
  bs.filter (fun p => !p.2.isEmpty)

/-- Whether a comments line raises the uncaught `TypeError`: it passes the
`link_id`/`parent_id` truthiness and `t3_` prefix checks but has no `body`. -/
def lineFatal : CLine → Bool
  | .malformed => false
  | .obj r => passesChecks r && r.body.isNone

/-- The per-line diagnostics the Grouper prints, up to the first uncaught
exception (src/main.py line 51). -/
def commentReports : List CLine → List String
  | [] => []
  | .malformed :: ls => "Error decoding JSON in comments file" :: commentReports ls
  | .obj r :: ls =>
    if lineFatal (.obj r) then [] else commentReports ls

/-- The Grouper's observable behaviour. -/
structure GroupOut where
  batches : List (String × List Comment)
  reports : List String
  fatal : Option PyErr
deriving DecidableEq, Repr

/-- `process_comments_in_chunks` (src/main.py lines 31-56): a missing file
(`FileNotFoundError`) is caught and reported and nothing is yielded;
otherwise the file is processed line by line and, unless an uncaught
exception stopped the loop, every non-empty remaining bucket is yielded at
stream end. -/
def process_comments_in_chunks (file : Option (List CLine)) (batch_size : Nat) :
    GroupOut :=
  match file with
  | none => { batches := [], reports := ["File not found"], fatal := none }
  | some lines =>
    let r := runLines batch_size lines []
    match r.2.2 with
    | some e =>
      { batches := r.1, reports := commentReports lines, fatal := some e }
    | none =>
      { batches := r.1 ++ finalFlush r.2.1, reports := commentReports lines,
        fatal := none }

/-- Python `max(comments, key=lambda c: c['score'])` starting from a first
candidate: later elements replace the best only when strictly greater, so
the first element of maximal score wins. -/
def pyMax1 (best : Comment) : List Comment → Comment
  | [] => best
  | c :: cs => pyMax1 (if best.score < c.score then c else best) cs

/-- `max(comments_by_post[post_id], key=lambda c: c['score'], default=None)`
(src/main.py line 72). -/
def pyMax : List Comment → Option Comment
  | [] => none
  | c :: cs => some (pyMax1 c cs)

/-- Draining the Grouper's output into the Joiner's index
(src/main.py lines 59-61): `comments_by_post[link_id].extend(comments)`. -/
def buildIndexFrom (idx : List (String × List Comment)) :
    List (String × List Comment) → List (String × List Comment)
  | [] => idx
  | (k, cs) :: rest => buildIndexFrom (bset idx k (bget idx k ++ cs)) rest

/-- The Joiner's fully materialized index. -/
def buildIndex (batches : List (String × List Comment)) :
    List (String × List Comment) :=
  buildIndexFrom [] batches

/-- Process one posts-file line (src/main.py lines 66-83): the rows it
writes.  A malformed line is reported and skipped; an accepted post writes
one row when its top comment exists and scores at least 1. -/
def processPost (idx : List (String × List Comment)) (subreddit : String)
    (min_score : Int) : PLine → List Row
  | .malformed => []
  | .obj p =>
    let title := p.title.getD ""
    let content := p.selftext.getD ""
    let inIndex := match p.name with
      | some n => bhas idx n
      | none => false
    if min_score ≤ p.score.getD 0 && inIndex
        && !pyIn "[deleted]" title && !pyIn "[removed]" title
        && !pyIn "[deleted]" content && !pyIn "[removed]" content then
      match pyMax (bget idx (p.name.getD "")) with
      | some top =>
        if 1 ≤ top.score then
          [{ title := title, content := content, post_score := p.score,
             top_comment := top.body, comment_score := top.score,
             subreddit := subreddit }]
        else []
      | none => []
    else []

/-- The per-line diagnostics of the posts pass. -/
def postReports (lines : List PLine) : List String :=
  lines.filterMap fun l =>
    match l with
    | .malformed => some "Error decoding posts file"
    | .obj _ => none

/-- The Joiner's observable behaviour. -/
structure JoinOut where
  rows : List Row
  reports : List String
  fatal : Option PyErr
deriving DecidableEq, Repr

/-- `match_posts_with_top_comments` (src/main.py lines 58-85): drain the
Grouper's generator into the index (an exception raised by the generator
propagates — the drain loop is outside the `try`), then, file permitting,
process the posts stream line by line; a missing posts file is caught and
reported. -/
def match_posts_with_top_comments (posts_file : Option (List PLine))
    (gen : GroupOut) (subreddit : String) (min_score : Int) : JoinOut :=
  match gen.fatal with
  | some e => { rows := [], reports := [], fatal := some e }
  | none =>
    let idx := buildIndex gen.batches
    match posts_file with
    | none => { rows := [], reports := ["File not found"], fatal := none }
    | some lines =>
      { rows := lines.flatMap (processPost idx subreddit min_score),
        reports := postReports lines, fatal := none }

/-- The Grouper's per-record retention test, read off src/main.py
lines 40-42: truthy `link_id` and `parent_id`, `parent_id` starting with
`t3_`, and a present `body` containing neither tombstone marker. -/
def eligible : CLine → Bool
  | .malformed => false
  | .obj r =>
    passesChecks r
      && (match r.body with
          | some b => !pyIn "[deleted]" b && !pyIn "[removed]" b
          | none => false)

/-- The comment an eligible line contributes to its bucket. -/
def toStored : CLine → Comment
  | .malformed => ⟨"", 0⟩
  | .obj r => ⟨r.body.getD "", r.score.getD 0⟩

/-- The bucket key of a line. -/
def lineKey : CLine → String
  | .malformed => ""
  | .obj r => r.link_id.getD ""

/-- An eligible line with a given bucket key. -/
def eligibleFor (k : String) (l : CLine) : Bool :=
  eligible l && lineKey l == k

/-- The comments the eligible lines of key `k` contribute, in stream
order. -/
def storedFor (k : String) (lines : List CLine) : List Comment :=
  (lines.filter (eligibleFor k)).map toStored

/-- All comments yielded for key `k` across a batch list, in order. -/
def yieldedFor (k : String) : List (String × List Comment) → List Comment
  | [] => []
  | (k', cs) :: rest => (if k' = k then cs else []) ++ yieldedFor k rest

/-- The exclusion classes the spec names for a comment record: a `body`
containing a tombstone marker, a missing `link_id` or `parent_id`, or a
`parent_id` not denoting a direct post reply. -/
def badRecord (r : CommentRec) : Bool :=
  (match r.body with
   | some b => pyIn "[deleted]" b || pyIn "[removed]" b
   | none => false)
  || r.link_id.isNone || r.parent_id.isNone
  || !chStarts "t3_".toList (r.parent_id.getD "").toList

/-- A line the Grouper filters out on its tombstone check alone: it passes
the presence and prefix checks, has a `body`, and that body contains a
tombstone marker. -/
def tombFiltered : CLine → Bool
  | .malformed => false
  | .obj r =>
    passesChecks r
      && (match r.body with
          | some b => pyIn "[deleted]" b || pyIn "[removed]" b
          | none => false)

/-- The running maximum of scores, seeded by a first candidate's score:
the specification's "maximum score in that bucket" for bucket
`c :: cs`. -/
def maxScoreFrom (a : Int) (cs : List Comment) : Int :=
  cs.foldl (fun m x => max m x.score) a

/-! ### Dictionary lemmas -/

theorem bget_bset_self (bs : List (String × List Comment)) (k : String)
    (v : List Comment) : bget (bset bs k v) k = v := by
  induction bs with
  | nil => simp [bset, bget]
  | cons p t ih =>
    obtain ⟨k', w⟩ := p
    by_cases h : k' = k <;> simp [bset, bget, h, ih]

theorem bget_bset_ne (bs : List (String × List Comment)) (k k' : String)
    (v : List Comment) (h : k' ≠ k) : bget (bset bs k v) k' = bget bs k' := by
  induction bs with
  | nil => simp [bset, bget, Ne.symm h]
  | cons p t ih =>
    obtain ⟨k'', w⟩ := p
    by_cases h2 : k'' = k
    · subst h2
      simp [bset, bget, Ne.symm h]
    · simp [bset, bget, h2, ih]

theorem bget_btouch (bs : List (String × List Comment)) (k k' : String) :
    bget (btouch bs k) k' = bget bs k' := by
  induction bs with
  | nil =>
    by_cases h : k = k' <;> simp [btouch, bget, h]
  | cons p t ih =>
    obtain ⟨k'', w⟩ := p
    by_cases h2 : k'' = k
    · simp [btouch, bget, h2]
    · simp [btouch, bget, h2, ih]

theorem mem_bset (bs : List (String × List Comment)) (k : String)
    (v : List Comment) (p : String × List Comment) (hp : p ∈ bset bs k v) :
    p ∈ bs ∨ p = (k, v) := by
  induction bs with
  | nil => simpa [bset] using hp
  | cons q t ih =>
    obtain ⟨k', w⟩ := q
    by_cases h : k' = k
    · simp only [bset, if_pos h] at hp
      rcases List.mem_cons.mp hp with h1 | h1
      · exact Or.inr h1
      · exact Or.inl (List.mem_cons_of_mem _ h1)
    · simp only [bset, if_neg h] at hp
      rcases List.mem_cons.mp hp with h1 | h1
      · exact Or.inl (h1 ▸ List.mem_cons_self _ _)
      · rcases ih h1 with h2 | h2
        · exact Or.inl (List.mem_cons_of_mem _ h2)
        · exact Or.inr h2

theorem mem_btouch (bs : List (String × List Comment)) (k : String)
    (p : String × List Comment) (hp : p ∈ btouch bs k) :
    p ∈ bs ∨ p = (k, []) := by
  induction bs with
  | nil => simpa [btouch] using hp
  | cons q t ih =>
    obtain ⟨k', w⟩ := q
    by_cases h : k' = k
    · simp only [btouch, if_pos h] at hp
      exact Or.inl hp
    · simp only [btouch, if_neg h] at hp
      rcases List.mem_cons.mp hp with h1 | h1
      · exact Or.inl (h1 ▸ List.mem_cons_self _ _)
      · rcases ih h1 with h2 | h2
        · exact Or.inl (List.mem_cons_of_mem _ h2)
        · exact Or.inr h2

/-- A non-empty `bget` result is the contents of one entry of the list. -/
theorem bget_cases (bs : List (String × List Comment)) (k : String) :
    bget bs k = [] ∨ ∃ p ∈ bs, p.1 = k ∧ p.2 = bget bs k := by
  induction bs with
  | nil => exact Or.inl rfl
  | cons q t ih =>
    obtain ⟨k', w⟩ := q
    by_cases h : k' = k
    · refine Or.inr ⟨(k', w), List.mem_cons_self _ _, h, ?_⟩
      simp [bget, h]
    · rcases ih with h1 | ⟨p, hp, hk, hv⟩
      · left
        simpa [bget, h] using h1
      · refine Or.inr ⟨p, List.mem_cons_of_mem _ hp, hk, ?_⟩
        simpa [bget, h] using hv

/-! ### `yieldedFor` lemmas -/

theorem yieldedFor_append (k : String) (a b : List (String × List Comment)) :
    yieldedFor k (a ++ b) = yieldedFor k a ++ yieldedFor k b := by
  induction a with
  | nil => simp [yieldedFor]
  | cons p t ih =>
    obtain ⟨k', cs⟩ := p
    simp [yieldedFor, ih]

theorem yieldedFor_eq_nil (k : String) (bs : List (String × List Comment))
    (h : ∀ p ∈ bs, p.1 ≠ k) : yieldedFor k bs = [] := by
  induction bs with
  | nil => rfl
  | cons p t ih =>
    obtain ⟨k', cs⟩ := p
    have hk : k' ≠ k := h (k', cs) (List.mem_cons_self _ _)
    simp only [yieldedFor, if_neg hk, List.nil_append]
    exact ih fun q hq => h q (List.mem_cons_of_mem _ hq)

theorem bget_eq_nil (bs : List (String × List Comment)) (k : String)
    (h : ∀ p ∈ bs, p.1 ≠ k) : bget bs k = [] := by
  induction bs with
  | nil => rfl
  | cons p t ih =>
    obtain ⟨k', cs⟩ := p
    have hk : k' ≠ k := h (k', cs) (List.mem_cons_self _ _)
    simp only [bget, if_neg hk]
    exact ih fun q hq => h q (List.mem_cons_of_mem _ hq)


theorem storedFor_cons (k : String) (l : CLine) (ls : List CLine) :
    storedFor k (l :: ls)
      = (if eligibleFor k l then [toStored l] else []) ++ storedFor k ls := by
  by_cases h : eligibleFor k l = true <;>
    simp [storedFor, List.filter_cons, h]

theorem flushStep_partition (B : Nat) (lid : String)
    (bs : List (String × List Comment)) (k : String) :
    yieldedFor k (flushStep B lid bs).1 ++ bget (flushStep B lid bs).2 k
      = bget bs k := by
  unfold flushStep
  by_cases hf : B ≤ (bget bs lid).length
  · rw [if_pos hf]
    by_cases hk : lid = k
    · subst hk
      simp [yieldedFor, bget_bset_self]
    · simp [yieldedFor, hk, bget_bset_ne _ _ _ _ (Ne.symm hk)]
  · rw [if_neg hf]
    simp [yieldedFor]

theorem bget_appendAttempt_self (b : String) (sc : Int) (lid : String)
    (bs : List (String × List Comment))
    (hc : (!pyIn "[deleted]" b && !pyIn "[removed]" b) = true) :
    bget (appendAttempt b sc lid bs) lid = bget bs lid ++ [⟨b, sc⟩] := by
  unfold appendAttempt
  rw [if_pos hc]
  exact bget_bset_self ..

theorem bget_appendAttempt_ne (b : String) (sc : Int) (lid : String)
    (bs : List (String × List Comment)) (k : String) (hk : k ≠ lid) :
    bget (appendAttempt b sc lid bs) k = bget bs k := by
  unfold appendAttempt
  by_cases hc : (!pyIn "[deleted]" b && !pyIn "[removed]" b) = true
  · rw [if_pos hc, bget_bset_ne _ _ _ _ hk]
  · rw [if_neg hc, bget_btouch]

theorem bget_appendAttempt_tomb (b : String) (sc : Int) (lid : String)
    (bs : List (String × List Comment)) (k : String)
    (hc : (!pyIn "[deleted]" b && !pyIn "[removed]" b) = false) :
    bget (appendAttempt b sc lid bs) k = bget bs k := by
  unfold appendAttempt
  rw [if_neg (by simp [hc]), bget_btouch]

theorem stepLine_fatal_none (B : Nat) (l : CLine)
    (bs : List (String × List Comment)) (h : lineFatal l = false) :
    (stepLine B l bs).2.2 = none := by
  cases l with
  | malformed => rfl
  | obj r =>
    simp only [stepLine]
    by_cases hg : passesChecks r = true
    · rw [if_pos hg]
      cases hb : r.body with
      | none =>
        exfalso
        simp only [lineFatal, hg, hb] at h
        simp at h
      | some b => simp [hb]
    · rw [if_neg hg]

theorem stepLine_partition (B : Nat) (l : CLine)
    (bs : List (String × List Comment)) (h : lineFatal l = false) (k : String) :
    yieldedFor k (stepLine B l bs).1 ++ bget (stepLine B l bs).2.1 k
      = bget bs k ++ storedFor k [l] := by
  cases l with
  | malformed =>
    simp [stepLine, yieldedFor, storedFor, eligibleFor, eligible]
  | obj r =>
    by_cases hg : passesChecks r = true
    · cases hb : r.body with
      | none =>
        exfalso
        simp only [lineFatal, hg, hb] at h
        simp at h
      | some b =>
        have hstep : stepLine B (CLine.obj r) bs
            = ((flushStep B (r.link_id.getD "")
                  (appendAttempt b (r.score.getD 0) (r.link_id.getD "") bs)).1,
               (flushStep B (r.link_id.getD "")
                  (appendAttempt b (r.score.getD 0) (r.link_id.getD "") bs)).2,
               none) := by
          simp only [stepLine]
          rw [if_pos hg]
          simp [hb]
        rw [hstep]
        simp only []
        rw [flushStep_partition]
        by_cases hc : (!pyIn "[deleted]" b && !pyIn "[removed]" b) = true
        · have helig : eligible (CLine.obj r) = true := by
            simp [eligible, hg, hb, hc]
          by_cases hk : r.link_id.getD "" = k
          · rw [← hk]
            rw [bget_appendAttempt_self _ _ _ _ hc]
            simp [storedFor, eligibleFor, helig, lineKey, toStored, hb]
          · rw [bget_appendAttempt_ne _ _ _ _ _ (Ne.symm hk)]
            simp [storedFor, eligibleFor, lineKey, hk]
        · have helig : eligible (CLine.obj r) = false := by
            simp only [eligible, hg, hb, Bool.true_and]
            simpa using hc
          rw [bget_appendAttempt_tomb _ _ _ _ _ (by simpa using hc)]
          simp [storedFor, eligibleFor, helig]
    · have hstep : stepLine B (CLine.obj r) bs = ([], bs, none) := by
        simp only [stepLine]
        rw [if_neg hg]
      have helig : eligible (CLine.obj r) = false := by
        simp only [eligible]
        rcases Bool.not_eq_true _ |>.mp hg with h2
        rw [Bool.eq_false_iff] at h2 ⊢
        intro hx
        exact h2 (by
          rcases Bool.and_eq_true .. |>.mp hx with ⟨h3, _⟩
          exact h3)
      rw [hstep]
      simp [yieldedFor, storedFor, eligibleFor, helig]

theorem runLines_partition (B : Nat) (lines : List CLine) :
    ∀ bs : List (String × List Comment), (∀ l ∈ lines, lineFatal l = false) →
    ∀ k, yieldedFor k (runLines B lines bs).1
        ++ bget (runLines B lines bs).2.1 k
      = bget bs k ++ storedFor k lines := by
  induction lines with
  | nil =>
    intro bs _ k
    simp [runLines, yieldedFor, storedFor]
  | cons l ls ih =>
    intro bs h k
    have hl : lineFatal l = false := h l (List.mem_cons_self _ _)
    have hfat : (stepLine B l bs).2.2 = none := stepLine_fatal_none B l bs hl
    simp only [runLines]
    rw [hfat]
    simp only []
    rw [yieldedFor_append, List.append_assoc,
      ih _ (fun x hx => h x (List.mem_cons_of_mem _ hx)) k]
    rw [← List.append_assoc, stepLine_partition B l bs hl k, storedFor_cons]
    by_cases he : eligibleFor k l = true <;>
      simp [storedFor, he, List.append_assoc]


theorem runLines_fatal_none (B : Nat) (lines : List CLine) :
    ∀ bs : List (String × List Comment), (∀ l ∈ lines, lineFatal l = false) →
    (runLines B lines bs).2.2 = none := by
  induction lines with
  | nil => intro bs _; rfl
  | cons l ls ih =>
    intro bs h
    have hfat := stepLine_fatal_none B l bs (h l (List.mem_cons_self _ _))
    simp only [runLines]
    rw [hfat]
    exact ih _ fun x hx => h x (List.mem_cons_of_mem _ hx)

/-! ### Key uniqueness of the dictionaries -/

theorem bhas_iff_mem_keys (bs : List (String × List Comment)) (k : String) :
    bhas bs k = true ↔ k ∈ bs.map Prod.fst := by
  induction bs with
  | nil => simp [bhas]
  | cons p t ih =>
    obtain ⟨k', w⟩ := p
    simp only [bhas, List.map_cons, List.mem_cons, Bool.or_eq_true,
      decide_eq_true_eq, ih]
    constructor
    · rintro (h1 | h1)
      · exact Or.inl h1.symm
      · exact Or.inr h1
    · rintro (h1 | h1)
      · exact Or.inl h1.symm
      · exact Or.inr h1

theorem keys_bset (bs : List (String × List Comment)) (k : String)
    (v : List Comment) :
    (bset bs k v).map Prod.fst
      = if bhas bs k then bs.map Prod.fst else bs.map Prod.fst ++ [k] := by
  induction bs with
  | nil => simp [bset, bhas]
  | cons p t ih =>
    obtain ⟨k', w⟩ := p
    by_cases h : k' = k
    · simp [bset, bhas, h]
    · simp only [bset, if_neg h, bhas, List.map_cons, ih]
      by_cases h2 : bhas t k = true <;> simp [h, h2]

theorem keys_btouch (bs : List (String × List Comment)) (k : String) :
    (btouch bs k).map Prod.fst
      = if bhas bs k then bs.map Prod.fst else bs.map Prod.fst ++ [k] := by
  induction bs with
  | nil => simp [btouch, bhas]
  | cons p t ih =>
    obtain ⟨k', w⟩ := p
    by_cases h : k' = k
    · simp [btouch, bhas, h]
    · simp only [btouch, if_neg h, bhas, List.map_cons, ih]
      by_cases h2 : bhas t k = true <;> simp [h, h2]

theorem nodup_keys_bset (bs : List (String × List Comment)) (k : String)
    (v : List Comment) (h : (bs.map Prod.fst).Nodup) :
    ((bset bs k v).map Prod.fst).Nodup := by
  rw [keys_bset]
  by_cases h2 : bhas bs k = true
  · simpa [h2]
  · have hk : k ∉ bs.map Prod.fst := fun hm =>
      h2 ((bhas_iff_mem_keys bs k).mpr hm)
    simp [h2, List.nodup_append, h, hk]

theorem nodup_keys_btouch (bs : List (String × List Comment)) (k : String)
    (h : (bs.map Prod.fst).Nodup) : ((btouch bs k).map Prod.fst).Nodup := by
  rw [keys_btouch]
  by_cases h2 : bhas bs k = true
  · simpa [h2]
  · have hk : k ∉ bs.map Prod.fst := fun hm =>
      h2 ((bhas_iff_mem_keys bs k).mpr hm)
    simp [h2, List.nodup_append, h, hk]

theorem nodup_keys_stepLine (B : Nat) (l : CLine)
    (bs : List (String × List Comment)) (h : (bs.map Prod.fst).Nodup) :
    (((stepLine B l bs).2.1).map Prod.fst).Nodup := by
  cases l with
  | malformed => exact h
  | obj r =>
    simp only [stepLine]
    by_cases hg : passesChecks r = true
    · rw [if_pos hg]
      cases hb : r.body with
      | none => exact h
      | some b =>
        simp only []
        have h1 : (((appendAttempt b (r.score.getD 0) (r.link_id.getD "") bs)).map
            Prod.fst).Nodup := by
          unfold appendAttempt
          by_cases hc : (!pyIn "[deleted]" b && !pyIn "[removed]" b) = true
          · rw [if_pos hc]; exact nodup_keys_bset _ _ _ h
          · rw [if_neg hc]; exact nodup_keys_btouch _ _ h
        unfold flushStep
        by_cases hf : B ≤ (bget (appendAttempt b (r.score.getD 0)
            (r.link_id.getD "") bs) (r.link_id.getD "")).length
        · rw [if_pos hf]
          exact nodup_keys_bset _ _ _ h1
        · rw [if_neg hf]
          exact h1
    · rw [if_neg hg]
      exact h

theorem nodup_keys_runLines (B : Nat) (lines : List CLine) :
    ∀ bs : List (String × List Comment), (bs.map Prod.fst).Nodup →
    (((runLines B lines bs).2.1).map Prod.fst).Nodup := by
  induction lines with
  | nil => intro bs h; exact h
  | cons l ls ih =>
    intro bs h
    simp only [runLines]
    cases hfat : (stepLine B l bs).2.2 with
    | some e => exact nodup_keys_stepLine B l bs h
    | none => exact ih _ (nodup_keys_stepLine B l bs h)

/-! ### Stream-end flush and the index -/

theorem yieldedFor_finalFlush (bs : List (String × List Comment)) :
    (bs.map Prod.fst).Nodup →
    ∀ k, yieldedFor k (finalFlush bs) = bget bs k := by
  induction bs with
  | nil => intro _ k; rfl
  | cons p t ih =>
    intro h k
    obtain ⟨k', v⟩ := p
    have hcons : (k' :: t.map Prod.fst).Nodup := by simpa using h
    have h2 : k' ∉ t.map Prod.fst := (List.nodup_cons.mp hcons).1
    have h1 : (t.map Prod.fst).Nodup := (List.nodup_cons.mp hcons).2
    by_cases hk : k' = k
    · subst hk
      have hz : yieldedFor k' (finalFlush t) = [] := by
        apply yieldedFor_eq_nil
        intro q hq hqk
        exact h2 (hqk ▸ List.mem_map_of_mem Prod.fst (List.mem_of_mem_filter hq))
      have hz2 : bget t k' = [] := by
        apply bget_eq_nil
        intro q hq hqk
        exact h2 (hqk ▸ List.mem_map_of_mem Prod.fst hq)
      by_cases hv : v.isEmpty = true
      · have hv' : v = [] := by
          cases v
          · rfl
          · simp [List.isEmpty] at hv
        simp [finalFlush, List.filter_cons, hv, bget, hz, hv'] at hz2 ⊢
        rw [show (t.filter fun p => !p.2.isEmpty) = finalFlush t from rfl, hz]
      · simp only [finalFlush, List.filter_cons, hv]
        simp only [Bool.not_false, if_pos]
        simp only [yieldedFor, if_pos rfl, bget, if_pos rfl]
        rw [show (t.filter fun p => !p.2.isEmpty) = finalFlush t from rfl, hz]
        simp
    · by_cases hv : v.isEmpty = true <;>
        simp [finalFlush, List.filter_cons, hv, yieldedFor, bget, hk, ← ih h1 k]

theorem bget_buildIndexFrom (batches : List (String × List Comment)) :
    ∀ (idx : List (String × List Comment)) (k : String),
    bget (buildIndexFrom idx batches) k = bget idx k ++ yieldedFor k batches := by
  induction batches with
  | nil => intro idx k; simp [buildIndexFrom, yieldedFor]
  | cons p rest ih =>
    intro idx k
    obtain ⟨k', cs⟩ := p
    simp only [buildIndexFrom]
    rw [ih]
    by_cases hk : k' = k
    · subst hk
      rw [bget_bset_self]
      simp [yieldedFor]
    · rw [bget_bset_ne _ _ _ _ (Ne.symm hk)]
      simp [yieldedFor, hk]

theorem process_batches_eq (lines : List CLine) (B : Nat)
    (h : ∀ l ∈ lines, lineFatal l = false) :
    (process_comments_in_chunks (some lines) B).batches
      = (runLines B lines []).1 ++ finalFlush (runLines B lines []).2.1 := by
  simp only [process_comments_in_chunks]
  rw [runLines_fatal_none B lines [] h]


/-! ### C1: partition of eligible comments into batches, and the index -/

/-- C1 (amended): for every comments stream none of whose lines raises the
uncaught missing-body `TypeError`, every batch threshold `B ≥ 1` and every
`link_id` key, the concatenation of the batches the Comment Grouper yields
for that key is exactly the list of eligible comments (truthy `link_id` and
`parent_id`, `parent_id` starting with `t3_`, body free of tombstone
markers) with that key, in stream order — so the yielded total equals the
eligible count: each eligible comment in exactly one batch, no loss, no
duplication — and the Joiner's index, built by extending existing buckets
as keys recur across batches, maps the key to exactly those comments. -/
theorem grouper_partition_and_index (lines : List CLine) (B : Nat) (k : String)
    (hB : 1 ≤ B) (hok : ∀ l ∈ lines, lineFatal l = false) :
    yieldedFor k (process_comments_in_chunks (some lines) B).batches
      = storedFor k lines
    ∧ (yieldedFor k (process_comments_in_chunks (some lines) B).batches).length
      = (lines.filter (eligibleFor k)).length
    ∧ bget (buildIndex (process_comments_in_chunks (some lines) B).batches) k
      = storedFor k lines := by
  have h1 : yieldedFor k (process_comments_in_chunks (some lines) B).batches
      = storedFor k lines := by
    rw [process_batches_eq lines B hok, yieldedFor_append,
      yieldedFor_finalFlush _ (nodup_keys_runLines B lines [] (by simp)) k]
    have h2 := runLines_partition B lines [] hok k
    simpa [bget] using h2
  refine ⟨h1, ?_, ?_⟩
  · rw [h1]
    simp [storedFor]
  · rw [buildIndex, bget_buildIndexFrom, h1]
    simp [bget]

/-- C1 witness: a two-line stream (one eligible comment, one tombstoned) at
`B = 1`, key `t3_A`. -/
theorem grouper_partition_and_index_witness :
    yieldedFor "t3_A" (process_comments_in_chunks (some
        [CLine.obj ⟨some "t3_A", some "t3_A", some "nice", some 2⟩,
         CLine.obj ⟨some "t3_A", some "t3_A", some "[removed]", some 7⟩]) 1).batches
      = storedFor "t3_A"
        [CLine.obj ⟨some "t3_A", some "t3_A", some "nice", some 2⟩,
         CLine.obj ⟨some "t3_A", some "t3_A", some "[removed]", some 7⟩]
    ∧ (yieldedFor "t3_A" (process_comments_in_chunks (some
        [CLine.obj ⟨some "t3_A", some "t3_A", some "nice", some 2⟩,
         CLine.obj ⟨some "t3_A", some "t3_A", some "[removed]", some 7⟩]) 1).batches).length
      = (([CLine.obj ⟨some "t3_A", some "t3_A", some "nice", some 2⟩,
          CLine.obj ⟨some "t3_A", some "t3_A", some "[removed]", some 7⟩]).filter
          (eligibleFor "t3_A")).length
    ∧ bget (buildIndex (process_comments_in_chunks (some
        [CLine.obj ⟨some "t3_A", some "t3_A", some "nice", some 2⟩,
         CLine.obj ⟨some "t3_A", some "t3_A", some "[removed]", some 7⟩]) 1).batches) "t3_A"
      = storedFor "t3_A"
        [CLine.obj ⟨some "t3_A", some "t3_A", some "nice", some 2⟩,
         CLine.obj ⟨some "t3_A", some "t3_A", some "[removed]", some 7⟩] :=
  grouper_partition_and_index
    [CLine.obj ⟨some "t3_A", some "t3_A", some "nice", some 2⟩,
     CLine.obj ⟨some "t3_A", some "t3_A", some "[removed]", some 7⟩]
    1 "t3_A" (by decide) (by decide)

/-- C1 counterexample to the claim as stated (over every input stream): a
stream whose second line passes the presence and prefix checks but lacks a
`body` raises the uncaught `TypeError`; the eligible comment buffered by the
first line is lost with the skipped final flush, so the yielded total for
`t3_A` is 0 while the stream has 1 eligible comment with that key. -/
theorem grouper_partition_loss_cex :
    (yieldedFor "t3_A" (process_comments_in_chunks (some
        [CLine.obj ⟨some "t3_A", some "t3_A", some "fine", some 2⟩,
         CLine.obj ⟨some "t3_A", some "t3_A", none, some 1⟩]) 2).batches).length
      ≠ (([CLine.obj ⟨some "t3_A", some "t3_A", some "fine", some 2⟩,
          CLine.obj ⟨some "t3_A", some "t3_A", none, some 1⟩]).filter
          (eligibleFor "t3_A")).length := by
  decide


/-! ### C2: the uncaught missing-body TypeError -/

/-- C2 (refuting the no-fatal-error claim): a comments line that parses as
JSON, passes the `link_id`/`parent_id` checks, but lacks a `body` field
reaches `"[deleted]" not in None`, and the resulting `TypeError` is caught
neither by the `except json.JSONDecodeError` nor by the
`except FileNotFoundError` handler: it propagates out of the Grouper, and
through the Joiner's drain loop to its caller. -/
theorem grouper_missing_body_raises :
    (process_comments_in_chunks (some
        [CLine.obj ⟨some "t3_A", some "t3_A", none, some 1⟩]) 1000).fatal
      = some PyErr.typeError
    ∧ (match_posts_with_top_comments
        (some [PLine.obj ⟨some "t3_A", some "T", some "C", some 10⟩])
        (process_comments_in_chunks (some
          [CLine.obj ⟨some "t3_A", some "t3_A", none, some 1⟩]) 1000)
        "sub" 0).fatal = some PyErr.typeError := by
  decide

/-! ### Bucket length bounds and batch sizes -/

/-- With every bucket under the threshold, a line yields only batches of
exactly `batch_size` comments and leaves every bucket under the
threshold. -/
theorem stepLine_bound (B : Nat) (l : CLine) (bs : List (String × List Comment))
    (hinv : ∀ k, (bget bs k).length < B) :
    (∀ p ∈ (stepLine B l bs).1, p.2.length = B)
    ∧ (∀ k, (bget (stepLine B l bs).2.1 k).length < B) := by
  cases l with
  | malformed => exact ⟨by simp [stepLine], hinv⟩
  | obj r =>
    simp only [stepLine]
    by_cases hg : passesChecks r = true
    · rw [if_pos hg]
      cases hb : r.body with
      | none => exact ⟨by simp, hinv⟩
      | some b =>
        simp only []
        have hB0 : 0 < B := Nat.lt_of_le_of_lt (Nat.zero_le _) (hinv "")
        have happ : ∀ k, (bget (appendAttempt b (r.score.getD 0)
            (r.link_id.getD "") bs) k).length ≤ B := by
          intro k
          by_cases hk : k = r.link_id.getD ""
          · subst hk
            unfold appendAttempt
            by_cases hc : (!pyIn "[deleted]" b && !pyIn "[removed]" b) = true
            · rw [if_pos hc, bget_bset_self]
              have := hinv (r.link_id.getD "")
              simp only [List.length_append, List.length_cons, List.length_nil]
              omega
            · rw [if_neg hc, bget_btouch]
              exact Nat.le_of_lt (hinv (r.link_id.getD ""))
          · rw [bget_appendAttempt_ne _ _ _ _ _ hk]
            exact Nat.le_of_lt (hinv k)
        unfold flushStep
        by_cases hf : B ≤ (bget (appendAttempt b (r.score.getD 0)
            (r.link_id.getD "") bs) (r.link_id.getD "")).length
        · rw [if_pos hf]
          constructor
          · intro p hp
            rcases List.mem_singleton.mp hp with rfl
            exact Nat.le_antisymm (happ _) hf
          · intro k
            by_cases hk : k = r.link_id.getD ""
            · subst hk
              rw [bget_bset_self]
              simpa using hB0
            · rw [bget_bset_ne _ _ _ _ hk, bget_appendAttempt_ne _ _ _ _ _ hk]
              exact hinv k
        · rw [if_neg hf]
          refine ⟨by simp, ?_⟩
          intro k
          dsimp only
          by_cases hk : k = r.link_id.getD ""
          · subst hk
            omega
          · rw [bget_appendAttempt_ne _ _ _ _ _ hk]
            exact hinv k
    · rw [if_neg hg]
      exact ⟨by simp, hinv⟩

/-- Along any run from buckets under the threshold, every yielded batch has
exactly `batch_size` comments and every bucket stays under the
threshold. -/
theorem runLines_bound (B : Nat) (lines : List CLine) :
    ∀ bs : List (String × List Comment), (∀ k, (bget bs k).length < B) →
    (∀ p ∈ (runLines B lines bs).1, p.2.length = B)
    ∧ (∀ k, (bget (runLines B lines bs).2.1 k).length < B) := by
  induction lines with
  | nil => intro bs hinv; exact ⟨by simp [runLines], hinv⟩
  | cons l ls ih =>
    intro bs hinv
    obtain ⟨hy, hb⟩ := stepLine_bound B l bs hinv
    simp only [runLines]
    cases hfat : (stepLine B l bs).2.2 with
    | some e => exact ⟨hy, hb⟩
    | none =>
      obtain ⟨hy2, hb2⟩ := ih _ hb
      refine ⟨?_, hb2⟩
      intro p hp
      rcases List.mem_append.mp hp with h1 | h1
      · exact hy p h1
      · exact hy2 p h1

/-- In a dictionary with distinct keys, an entry's contents are what lookup
at its key returns. -/
theorem bget_of_mem_nodup (bs : List (String × List Comment))
    (h : (bs.map Prod.fst).Nodup) (p : String × List Comment) (hp : p ∈ bs) :
    bget bs p.1 = p.2 := by
  induction bs with
  | nil => cases hp
  | cons q t ih =>
    obtain ⟨k', v⟩ := q
    have hcons : (k' :: t.map Prod.fst).Nodup := by simpa using h
    rcases List.mem_cons.mp hp with h1 | h1
    · subst h1
      simp [bget]
    · have hne : p.1 ≠ k' := by
        intro he
        exact (List.nodup_cons.mp hcons).1
          (he ▸ List.mem_map_of_mem Prod.fst h1)
      simp only [bget, if_neg (Ne.symm hne)]
      exact ih (List.nodup_cons.mp hcons).2 h1

/-- The Grouper's batch list, with and without an uncaught exception. -/
theorem process_batches_cases (lines : List CLine) (B : Nat) :
    (process_comments_in_chunks (some lines) B).batches = (runLines B lines []).1
    ∨ (process_comments_in_chunks (some lines) B).batches
      = (runLines B lines []).1 ++ finalFlush (runLines B lines []).2.1 := by
  simp only [process_comments_in_chunks]
  cases (runLines B lines []).2.2 with
  | some e => exact Or.inl rfl
  | none => exact Or.inr rfl

/-! ### C10: batch sizes -/

/-- C10: with batch threshold `B ≥ 1`, every batch the Grouper yields
before stream end holds exactly `B` comments, every batch yielded at
stream end holds between 1 and `B - 1` comments, and hence every yielded
`(post_id, comments)` pair has a non-empty comments list. -/
theorem grouper_batch_size_bounds (lines : List CLine) (B : Nat) (hB : 1 ≤ B) :
    (∀ p ∈ (runLines B lines []).1, p.2.length = B)
    ∧ (∀ p ∈ finalFlush (runLines B lines []).2.1,
        1 ≤ p.2.length ∧ p.2.length ≤ B - 1)
    ∧ (∀ p ∈ (process_comments_in_chunks (some lines) B).batches, p.2 ≠ []) := by
  have hinit : ∀ k, (bget ([] : List (String × List Comment)) k).length < B := by
    intro k
    simpa [bget] using hB
  obtain ⟨h1, h2⟩ := runLines_bound B lines [] hinit
  have hnd := nodup_keys_runLines B lines [] (by simp)
  have hff : ∀ p ∈ finalFlush (runLines B lines []).2.1,
      1 ≤ p.2.length ∧ p.2.length ≤ B - 1 := by
    intro p hp
    obtain ⟨hmem, hne⟩ := List.mem_filter.mp hp
    have hlen : (bget (runLines B lines []).2.1 p.1).length < B := h2 p.1
    rw [bget_of_mem_nodup _ hnd p hmem] at hlen
    have hp2 : p.2 ≠ [] := by
      intro hnil
      rw [hnil] at hne
      simp at hne
    have hpos : 1 ≤ p.2.length := by
      cases hq : p.2 with
      | nil => exact absurd hq hp2
      | cons a t => simp [hq]
    exact ⟨hpos, by omega⟩
  refine ⟨h1, hff, ?_⟩
  intro p hp
  rcases process_batches_cases lines B with hcase | hcase
  · rw [hcase] at hp
    have := h1 p hp
    intro hnil
    rw [hnil] at this
    simp at this
    omega
  · rw [hcase] at hp
    rcases List.mem_append.mp hp with hmem | hmem
    · have := h1 p hmem
      intro hnil
      rw [hnil] at this
      simp at this
      omega
    · have := (hff p hmem).1
      intro hnil
      rw [hnil] at this
      simp at this

/-- C10 witness: three eligible comments for one key at `B = 2`. -/
theorem grouper_batch_size_bounds_witness :
    (∀ p ∈ (runLines 2 [CLine.obj ⟨some "t3_A", some "t3_A", some "a", some 1⟩,
        CLine.obj ⟨some "t3_A", some "t3_A", some "b", some 2⟩,
        CLine.obj ⟨some "t3_A", some "t3_A", some "c", some 3⟩] []).1,
      p.2.length = 2)
    ∧ (∀ p ∈ finalFlush (runLines 2
        [CLine.obj ⟨some "t3_A", some "t3_A", some "a", some 1⟩,
         CLine.obj ⟨some "t3_A", some "t3_A", some "b", some 2⟩,
         CLine.obj ⟨some "t3_A", some "t3_A", some "c", some 3⟩] []).2.1,
      1 ≤ p.2.length ∧ p.2.length ≤ 2 - 1)
    ∧ (∀ p ∈ (process_comments_in_chunks (some
        [CLine.obj ⟨some "t3_A", some "t3_A", some "a", some 1⟩,
         CLine.obj ⟨some "t3_A", some "t3_A", some "b", some 2⟩,
         CLine.obj ⟨some "t3_A", some "t3_A", some "c", some 3⟩]) 2).batches,
      p.2 ≠ []) :=
  grouper_batch_size_bounds
    [CLine.obj ⟨some "t3_A", some "t3_A", some "a", some 1⟩,
     CLine.obj ⟨some "t3_A", some "t3_A", some "b", some 2⟩,
     CLine.obj ⟨some "t3_A", some "t3_A", some "c", some 3⟩] 2 (by decide)

/-! ### C3: the threshold check after a tombstone-filtered line -/

/-- A tombstone-filtered line runs the threshold check on its key's
unchanged bucket; with every bucket under the threshold the check cannot
fire: nothing is yielded and every bucket's contents are unchanged. -/
theorem stepLine_tombFiltered (B : Nat) (l : CLine)
    (bs : List (String × List Comment))
    (hinv : ∀ k, (bget bs k).length < B) (ht : tombFiltered l = true) :
    (stepLine B l bs).1 = []
    ∧ (∀ k, bget (stepLine B l bs).2.1 k = bget bs k) := by
  cases l with
  | malformed => simp [tombFiltered] at ht
  | obj r =>
    simp only [tombFiltered] at ht
    have hg : passesChecks r = true := ((Bool.and_eq_true _ _).mp ht).1
    have ht2 := ((Bool.and_eq_true _ _).mp ht).2
    cases hb : r.body with
    | none =>
      rw [hb] at ht2
      simp at ht2
    | some b =>
      rw [hb] at ht2
      have happ : appendAttempt b (r.score.getD 0) (r.link_id.getD "") bs
          = btouch bs (r.link_id.getD "") := by
        unfold appendAttempt
        rw [if_neg]
        intro hc
        rcases (Bool.and_eq_true _ _).mp hc with ⟨hc1, hc2⟩
        rcases (Bool.or_eq_true _ _).mp ht2 with h3 | h3
        · rw [h3] at hc1
          exact Bool.false_ne_true (by simpa using hc1.symm)
        · rw [h3] at hc2
          exact Bool.false_ne_true (by simpa using hc2.symm)
      simp only [stepLine]
      rw [if_pos hg]
      simp only [hb, happ]
      unfold flushStep
      have hlen : (bget (btouch bs (r.link_id.getD "")) (r.link_id.getD "")).length < B := by
        rw [bget_btouch]
        exact hinv _
      rw [if_neg (by omega)]
      exact ⟨rfl, fun k => bget_btouch ..⟩

/-- C3 (amended): the Grouper does run the batch-threshold check after the
append attempt regardless of whether the append occurred, but with `B ≥ 1`
the check never fires on a tombstone-filtered line: after any prefix of any
stream, every bucket holds fewer than `B` comments, so such a line yields
no batch and leaves every bucket's contents unchanged. -/
theorem tombstone_flush_never_fires (B : Nat) (pre : List CLine) (l : CLine)
    (hB : 1 ≤ B) (ht : tombFiltered l = true) :
    (stepLine B l (runLines B pre []).2.1).1 = []
    ∧ (∀ k, bget (stepLine B l (runLines B pre []).2.1).2.1 k
        = bget (runLines B pre []).2.1 k) := by
  have hinit : ∀ k, (bget ([] : List (String × List Comment)) k).length < B := by
    intro k
    simpa [bget] using hB
  exact stepLine_tombFiltered B l _ (runLines_bound B pre [] hinit).2 ht

/-- C3 witness: a single tombstoned line at `B = 1` on the empty prefix. -/
theorem tombstone_flush_never_fires_witness :
    (stepLine 1 (CLine.obj ⟨some "t3_A", some "t3_A", some "[deleted]", some 1⟩)
        (runLines 1 [] []).2.1).1 = []
    ∧ (∀ k, bget (stepLine 1
          (CLine.obj ⟨some "t3_A", some "t3_A", some "[deleted]", some 1⟩)
          (runLines 1 [] []).2.1).2.1 k
        = bget (runLines 1 [] []).2.1 k) :=
  tombstone_flush_never_fires 1 []
    (CLine.obj ⟨some "t3_A", some "t3_A", some "[deleted]", some 1⟩)
    (by decide) (by decide)

/-- C3 counterexample to the claim's existential part: there is no input
stream and threshold `B ≥ 1` on which a tombstone-filtered comment line
triggers a flush of its key's bucket. -/
theorem tombstone_flush_cex :
    ¬ ∃ (B : Nat) (pre : List CLine) (l : CLine),
        1 ≤ B ∧ tombFiltered l = true
        ∧ (stepLine B l (runLines B pre []).2.1).1 ≠ [] := by
  rintro ⟨B, pre, l, hB, ht, hne⟩
  have hinit : ∀ k, (bget ([] : List (String × List Comment)) k).length < B := by
    intro k
    simpa [bget] using hB
  exact hne (stepLine_tombFiltered B l _ (runLines_bound B pre [] hinit).2 ht).1


/-! ### C4: stable maximum selection -/

theorem le_maxScoreFrom (cs : List Comment) : ∀ a : Int, a ≤ maxScoreFrom a cs := by
  induction cs with
  | nil => intro a; simp [maxScoreFrom]
  | cons x t ih =>
    intro a
    calc a ≤ max a x.score := le_max_left _ _
    _ ≤ maxScoreFrom (max a x.score) t := ih _
    _ = maxScoreFrom a (x :: t) := rfl

theorem find?_eq_pyMax1 (cs : List Comment) : ∀ c : Comment,
    (c :: cs).find? (fun x => x.score == maxScoreFrom c.score cs)
      = some (pyMax1 c cs) := by
  induction cs with
  | nil =>
    intro c
    simp [pyMax1, maxScoreFrom, List.find?]
  | cons x t ih =>
    intro c
    by_cases hcx : c.score < x.score
    · have hbest : pyMax1 c (x :: t) = pyMax1 x t := by
        simp [pyMax1, hcx]
      have hM : maxScoreFrom c.score (x :: t) = maxScoreFrom x.score t := by
        show maxScoreFrom (max c.score x.score) t = maxScoreFrom x.score t
        congr 1
        omega
      have hclt : c.score < maxScoreFrom x.score t :=
        lt_of_lt_of_le hcx (le_maxScoreFrom t x.score)
      have hpred : ¬ ((fun y : Comment =>
          y.score == maxScoreFrom c.score (x :: t)) c = true) := by
        simp only [hM, beq_iff_eq]
        omega
      rw [hbest,
        List.find?_cons_of_neg (p := fun y : Comment =>
          y.score == maxScoreFrom c.score (x :: t)) _ hpred]
      simp only [hM]
      exact ih x
    · have hbest : pyMax1 c (x :: t) = pyMax1 c t := by
        simp [pyMax1, hcx]
      have hM : maxScoreFrom c.score (x :: t) = maxScoreFrom c.score t := by
        show maxScoreFrom (max c.score x.score) t = maxScoreFrom c.score t
        congr 1
        omega
      rw [hbest]
      simp only [hM]
      have h1 := ih c
      by_cases hc : ((fun y : Comment => y.score == maxScoreFrom c.score t) c) = true
      · rw [List.find?_cons_of_pos (p := fun y : Comment =>
            y.score == maxScoreFrom c.score t) _ hc] at h1 ⊢
        exact h1
      · have hle : c.score ≤ maxScoreFrom c.score t := le_maxScoreFrom t c.score
        have hcne : ¬ (c.score = maxScoreFrom c.score t) := by
          intro he
          exact hc (by simpa using he)
        have hpx : ¬ ((fun y : Comment =>
            y.score == maxScoreFrom c.score t) x) = true := by
          simp only [beq_iff_eq]
          omega
        rw [List.find?_cons_of_neg (p := fun y : Comment =>
            y.score == maxScoreFrom c.score t) _ hc] at h1
        rw [List.find?_cons_of_neg (p := fun y : Comment =>
            y.score == maxScoreFrom c.score t) _ hc,
          List.find?_cons_of_neg (p := fun y : Comment =>
            y.score == maxScoreFrom c.score t) _ hpx]
        exact h1

/-- C4: for every non-empty comment bucket, the Joiner's selection
`max(bucket, key=lambda c: c['score'], default=None)` is the first comment,
in index order, whose score equals the maximum score in the bucket (stable
max); in particular, for scores `[3, 7, 7, 2]` it is the first comment with
score `7`. -/
theorem joiner_stable_max (c : Comment) (cs : List Comment) :
    pyMax (c :: cs)
      = (c :: cs).find? (fun x => x.score == maxScoreFrom c.score cs)
    ∧ pyMax [⟨"a", 3⟩, ⟨"b", 7⟩, ⟨"c", 7⟩, ⟨"d", 2⟩]
      = some (⟨"b", 7⟩ : Comment) :=
  ⟨(find?_eq_pyMax1 cs c).symm, by decide⟩

/-! ### C5: emitted rows have comment_score ≥ 1 -/

theorem processPost_score_ge_one (idx : List (String × List Comment))
    (sub : String) (ms : Int) (l : PLine) (row : Row)
    (h : row ∈ processPost idx sub ms l) : 1 ≤ row.comment_score := by
  cases l with
  | malformed => cases h
  | obj p =>
    simp only [processPost] at h
    split at h
    · split at h
      · split at h
        next hs =>
          rcases List.mem_singleton.mp h with rfl
          exact hs
        next => cases h
      · cases h
    · cases h

/-- C5: every output row the Joiner emits has `comment_score ≥ 1`, and a
post whose single candidate comment has score 0 produces no output row even
though it satisfies every other acceptance condition (score ≥ min_score,
identifier indexed, no tombstone marker in title or content). -/
theorem joiner_comment_score_ge_one (posts_file : Option (List PLine))
    (gen : GroupOut) (sub : String) (ms : Int) (row : Row)
    (h : row ∈ (match_posts_with_top_comments posts_file gen sub ms).rows) :
    1 ≤ row.comment_score
    ∧ (match_posts_with_top_comments
        (some [PLine.obj ⟨some "t3_A", some "T", some "C", some 5⟩])
        (process_comments_in_chunks (some
          [CLine.obj ⟨some "t3_A", some "t3_A", some "meh", some 0⟩]) 1000)
        "s" 0).rows = [] := by
  refine ⟨?_, by decide⟩
  simp only [match_posts_with_top_comments] at h
  cases hf : gen.fatal with
  | some e =>
    rw [hf] at h
    cases h
  | none =>
    rw [hf] at h
    cases posts_file with
    | none => cases h
    | some lines =>
      dsimp only at h
      rcases List.mem_flatMap.mp h with ⟨l, _, hrow⟩
      exact processPost_score_ge_one _ _ _ _ _ hrow

/-- C5 witness: the end-to-end scenario row with comment score 5. -/
theorem joiner_comment_score_ge_one_witness :
    1 ≤ (⟨"T", "C", some 10, "hello", 5, "s"⟩ : Row).comment_score
    ∧ (match_posts_with_top_comments
        (some [PLine.obj ⟨some "t3_A", some "T", some "C", some 5⟩])
        (process_comments_in_chunks (some
          [CLine.obj ⟨some "t3_A", some "t3_A", some "meh", some 0⟩]) 1000)
        "s" 0).rows = [] :=
  joiner_comment_score_ge_one
    (some [PLine.obj ⟨some "t3_A", some "T", some "C", some 10⟩])
    (process_comments_in_chunks (some
      [CLine.obj ⟨some "t3_A", some "t3_A", some "hello", some 5⟩]) 1000)
    "s" 0 ⟨"T", "C", some 10, "hello", 5, "s"⟩ (by decide)


/-! ### C6: excluded records never reach a batch -/

theorem mem_of_mem_bget (bs : List (String × List Comment)) (k : String)
    (c : Comment) (hc : c ∈ bget bs k) : ∃ p ∈ bs, c ∈ p.2 := by
  rcases bget_cases bs k with h | ⟨p, hp, hk, hv⟩
  · rw [h] at hc
    cases hc
  · exact ⟨p, hp, hv ▸ hc⟩

theorem mem_appendAttempt_clean (b : String) (sc : Int) (lid : String)
    (bs : List (String × List Comment)) (p : String × List Comment)
    (hc : (!pyIn "[deleted]" b && !pyIn "[removed]" b) = true)
    (hp : p ∈ appendAttempt b sc lid bs) :
    p ∈ bs ∨ p = (lid, bget bs lid ++ [⟨b, sc⟩]) := by
  unfold appendAttempt at hp
  rw [if_pos hc] at hp
  exact mem_bset _ _ _ _ hp

theorem mem_appendAttempt_tomb (b : String) (sc : Int) (lid : String)
    (bs : List (String × List Comment)) (p : String × List Comment)
    (hc : ¬ (!pyIn "[deleted]" b && !pyIn "[removed]" b) = true)
    (hp : p ∈ appendAttempt b sc lid bs) :
    p ∈ bs ∨ p = (lid, []) := by
  unfold appendAttempt at hp
  rw [if_neg hc] at hp
  exact mem_btouch _ _ _ hp

theorem flushStep_sound (B : Nat) (lid : String)
    (bs : List (String × List Comment)) (Q : Comment → Prop)
    (hbs : ∀ p ∈ bs, ∀ c ∈ p.2, Q c) :
    (∀ p ∈ (flushStep B lid bs).1, ∀ c ∈ p.2, Q c)
    ∧ (∀ p ∈ (flushStep B lid bs).2, ∀ c ∈ p.2, Q c) := by
  unfold flushStep
  split
  · constructor
    · intro p hp c hc
      rcases List.mem_singleton.mp hp with rfl
      rcases mem_of_mem_bget _ _ _ hc with ⟨q, hq, hcq⟩
      exact hbs q hq c hcq
    · intro p hp c hc
      rcases mem_bset _ _ _ _ hp with h | h
      · exact hbs p h c hc
      · rw [h] at hc
        cases hc
  · exact ⟨by simp, hbs⟩

theorem stepLine_sound (B : Nat) (l : CLine)
    (bs : List (String × List Comment)) (Q : Comment → Prop)
    (hline : eligible l = true → Q (toStored l))
    (hbs : ∀ p ∈ bs, ∀ c ∈ p.2, Q c) :
    (∀ p ∈ (stepLine B l bs).1, ∀ c ∈ p.2, Q c)
    ∧ (∀ p ∈ (stepLine B l bs).2.1, ∀ c ∈ p.2, Q c) := by
  cases l with
  | malformed => exact ⟨by simp [stepLine], hbs⟩
  | obj r =>
    simp only [stepLine]
    by_cases hg : passesChecks r = true
    · rw [if_pos hg]
      cases hb : r.body with
      | none => exact ⟨by simp, hbs⟩
      | some b =>
        dsimp only
        have h1 : ∀ p ∈ appendAttempt b (r.score.getD 0) (r.link_id.getD "") bs,
            ∀ c ∈ p.2, Q c := by
          intro p hp c hc
          by_cases hcl : (!pyIn "[deleted]" b && !pyIn "[removed]" b) = true
          · rcases mem_appendAttempt_clean _ _ _ _ _ hcl hp with h | h
            · exact hbs p h c hc
            · rw [h] at hc
              rcases List.mem_append.mp hc with h2 | h2
              · rcases mem_of_mem_bget _ _ _ h2 with ⟨q, hq, hcq⟩
                exact hbs q hq c hcq
              · rcases List.mem_singleton.mp h2 with rfl
                have helig : eligible (CLine.obj r) = true := by
                  simp [eligible, hg, hb, hcl]
                have hQ := hline helig
                simpa [toStored, hb] using hQ
          · rcases mem_appendAttempt_tomb _ _ _ _ _ hcl hp with h | h
            · exact hbs p h c hc
            · rw [h] at hc
              cases hc
        exact flushStep_sound B _ _ Q h1
    · rw [if_neg hg]
      exact ⟨by simp, hbs⟩

theorem runLines_sound (B : Nat) (Q : Comment → Prop) (lines : List CLine) :
    ∀ bs : List (String × List Comment),
    (∀ l ∈ lines, eligible l = true → Q (toStored l)) →
    (∀ p ∈ bs, ∀ c ∈ p.2, Q c) →
    (∀ p ∈ (runLines B lines bs).1, ∀ c ∈ p.2, Q c)
    ∧ (∀ p ∈ (runLines B lines bs).2.1, ∀ c ∈ p.2, Q c) := by
  induction lines with
  | nil => intro bs _ hbs; exact ⟨by simp [runLines], hbs⟩
  | cons l ls ih =>
    intro bs hl hbs
    obtain ⟨hy, hb⟩ := stepLine_sound B l bs Q
      (hl l (List.mem_cons_self _ _)) hbs
    simp only [runLines]
    cases hfat : (stepLine B l bs).2.2 with
    | some e => exact ⟨hy, hb⟩
    | none =>
      obtain ⟨hy2, hb2⟩ := ih _ (fun x hx => hl x (List.mem_cons_of_mem _ hx)) hb
      refine ⟨?_, hb2⟩
      intro p hp
      rcases List.mem_append.mp hp with h1 | h1
      · exact hy p h1
      · exact hy2 p h1

theorem process_sound (lines : List CLine) (B : Nat) (Q : Comment → Prop)
    (hl : ∀ l ∈ lines, eligible l = true → Q (toStored l)) :
    ∀ p ∈ (process_comments_in_chunks (some lines) B).batches,
      ∀ c ∈ p.2, Q c := by
  obtain ⟨hy, hb⟩ := runLines_sound B Q lines [] hl (by simp)
  intro p hp c hc
  rcases process_batches_cases lines B with h | h
  · rw [h] at hp
    exact hy p hp c hc
  · rw [h] at hp
    rcases List.mem_append.mp hp with h1 | h1
    · exact hy p h1 c hc
    · exact hb p (List.mem_of_mem_filter h1) c hc

/-- An eligible record belongs to none of the spec's exclusion classes. -/
theorem badRecord_eq_false_of_eligible (r : CommentRec)
    (h : eligible (CLine.obj r) = true) : badRecord r = false := by
  simp only [eligible, Bool.and_eq_true] at h
  obtain ⟨hpass, hbody⟩ := h
  have hpass2 := hpass
  simp only [passesChecks, Bool.and_eq_true] at hpass2
  obtain ⟨⟨hlink, hpar⟩, hstart⟩ := hpass2
  simp only [badRecord, Bool.or_eq_false_iff]
  refine ⟨⟨⟨?_, ?_⟩, ?_⟩, ?_⟩
  · cases hb : r.body with
    | none => rfl
    | some b =>
      rw [hb] at hbody
      simp only [Bool.and_eq_true, Bool.not_eq_true'] at hbody
      simp [hbody.1, hbody.2]
  · cases hl2 : r.link_id with
    | none =>
      rw [hl2] at hlink
      simp [pyTruthy] at hlink
    | some sv => rfl
  · cases hp2 : r.parent_id with
    | none =>
      rw [hp2] at hpar
      simp [pyTruthy] at hpar
    | some sv => rfl
  · simpa using hstart

/-- C6: every comment in every batch the Comment Grouper ever yields comes
from an eligible record of the stream; since a record whose body contains
`[deleted]` or `[removed]`, or that is missing `link_id` or `parent_id`, or
whose `parent_id` does not start with `t3_`, is not eligible (it satisfies
`badRecord`, and `eligible` excludes every `badRecord`), such a record
appears in no batch ever yielded. -/
theorem grouper_excludes_marked_records (lines : List CLine) (B : Nat)
    (p : String × List Comment) (c : Comment)
    (hp : p ∈ (process_comments_in_chunks (some lines) B).batches)
    (hc : c ∈ p.2) :
    ∃ r : CommentRec, CLine.obj r ∈ lines ∧ eligible (CLine.obj r) = true
      ∧ badRecord r = false ∧ toStored (CLine.obj r) = c := by
  refine process_sound lines B
    (fun c => ∃ r : CommentRec, CLine.obj r ∈ lines
      ∧ eligible (CLine.obj r) = true ∧ badRecord r = false
      ∧ toStored (CLine.obj r) = c) ?_ p hp c hc
  intro l hl he
  cases l with
  | malformed => simp [eligible] at he
  | obj r => exact ⟨r, hl, he, badRecord_eq_false_of_eligible r he, rfl⟩

/-- C6 witness: the single batch of a one-comment stream at `B = 1`. -/
theorem grouper_excludes_marked_records_witness :
    ∃ r : CommentRec,
      CLine.obj r ∈ [CLine.obj ⟨some "t3_A", some "t3_A", some "hi", some 2⟩]
      ∧ eligible (CLine.obj r) = true ∧ badRecord r = false
      ∧ toStored (CLine.obj r) = ⟨"hi", 2⟩ :=
  grouper_excludes_marked_records
    [CLine.obj ⟨some "t3_A", some "t3_A", some "hi", some 2⟩] 1
    ("t3_A", [⟨"hi", 2⟩]) ⟨"hi", 2⟩ (by decide) (by decide)

/-! ### C7: the end-to-end scenario -/

/-- C7: on the two-line comments file (an eligible `hello` comment with
score 5 and a tombstoned comment with score 9, both keyed `t3_A`) and the
one-line posts file (`t3_A`, title `T`, selftext `C`, score 10), with
`min_score = 0` and the default batch size 1000, the pipeline emits exactly
one row: title `T`, content `C`, post score 10, top comment `hello`,
comment score 5, and the given subreddit label. -/
theorem end_to_end_single_row :
    (match_posts_with_top_comments
        (some [PLine.obj ⟨some "t3_A", some "T", some "C", some 10⟩])
        (process_comments_in_chunks (some
          [CLine.obj ⟨some "t3_A", some "t3_A", some "hello", some 5⟩,
           CLine.obj ⟨some "t3_A", some "t3_A", some "[deleted]", some 9⟩]) 1000)
        "sub" 0).rows
      = [⟨"T", "C", some 10, "hello", 5, "sub"⟩] := by
  decide


/-! ### C8: the min_score boundary -/

/-- C8: for a post that satisfies every other acceptance condition (its
identifier is an index key, neither title nor content contains a tombstone
marker, and its selected top comment scores at least 1), the Joiner emits
one row when the post's score equals `min_score` and none when it equals
`min_score - 1`. -/
theorem joiner_min_score_boundary (gen : GroupOut) (r : PostRec) (n : String)
    (sub : String) (ms : Int) (c : Comment)
    (hfatal : gen.fatal = none)
    (hname : r.name = some n)
    (hhas : bhas (buildIndex gen.batches) n = true)
    (ht1 : pyIn "[deleted]" (r.title.getD "") = false)
    (ht2 : pyIn "[removed]" (r.title.getD "") = false)
    (hc1 : pyIn "[deleted]" (r.selftext.getD "") = false)
    (hc2 : pyIn "[removed]" (r.selftext.getD "") = false)
    (htop : pyMax (bget (buildIndex gen.batches) n) = some c)
    (hscore : 1 ≤ c.score) :
    ((match_posts_with_top_comments
        (some [PLine.obj { r with score := some ms }]) gen sub ms).rows).length
      = 1
    ∧ ((match_posts_with_top_comments
        (some [PLine.obj { r with score := some (ms - 1) }]) gen sub ms).rows).length
      = 0 := by
  constructor
  · simp only [match_posts_with_top_comments, hfatal]
    simp only [List.flatMap_cons, List.flatMap_nil, List.append_nil, processPost]
    rw [if_pos]
    · simp only [hname, Option.getD_some, htop]
      rw [if_pos hscore]
      rfl
    · simp [hname, hhas, ht1, ht2, hc1, hc2]
  · simp only [match_posts_with_top_comments, hfatal]
    simp only [List.flatMap_cons, List.flatMap_nil, List.append_nil, processPost]
    rw [if_neg]
    · rfl
    · intro hcond
      simp only [Bool.and_eq_true, decide_eq_true_eq] at hcond
      have : ms ≤ ms - 1 := by
        simpa using hcond.1.1.1.1.1
      omega

/-- C8 witness: a one-batch index (`t3_A` with one comment of score 3) and
a post at the boundary `min_score = 4`. -/
theorem joiner_min_score_boundary_witness :
    ((match_posts_with_top_comments
        (some [PLine.obj ⟨some "t3_A", some "T", some "C", some 4⟩])
        ⟨[("t3_A", [⟨"hi", 3⟩])], [], none⟩ "s" 4).rows).length = 1
    ∧ ((match_posts_with_top_comments
        (some [PLine.obj ⟨some "t3_A", some "T", some "C", some 3⟩])
        ⟨[("t3_A", [⟨"hi", 3⟩])], [], none⟩ "s" 4).rows).length = 0 :=
  joiner_min_score_boundary ⟨[("t3_A", [⟨"hi", 3⟩])], [], none⟩
    ⟨some "t3_A", some "T", some "C", none⟩ "t3_A" "s" 4 ⟨"hi", 3⟩
    rfl rfl (by decide) (by decide) (by decide) (by decide) (by decide)
    (by decide) (by decide)

/-! ### C9: missing input files -/

/-- C9: a missing comments file is reported and the Grouper yields nothing;
a missing posts file is reported and the Joiner (fed a generator that did
not raise) emits no rows; in both cases no exception propagates, so the
surrounding per-subreddit loop continues. -/
theorem missing_files_degrade_gracefully (B : Nat) (gen : GroupOut)
    (sub : String) (ms : Int) (hfatal : gen.fatal = none) :
    process_comments_in_chunks none B
      = { batches := [], reports := ["File not found"], fatal := none }
    ∧ (match_posts_with_top_comments none gen sub ms).rows = []
    ∧ (match_posts_with_top_comments none gen sub ms).reports
      = ["File not found"]
    ∧ (match_posts_with_top_comments none gen sub ms).fatal = none := by
  refine ⟨rfl, ?_, ?_, ?_⟩ <;> simp [match_posts_with_top_comments, hfatal]

/-- C9 witness: an empty error-free generator. -/
theorem missing_files_degrade_gracefully_witness :
    process_comments_in_chunks none 1000
      = { batches := [], reports := ["File not found"], fatal := none }
    ∧ (match_posts_with_top_comments none ⟨[], [], none⟩ "s" 0).rows = []
    ∧ (match_posts_with_top_comments none ⟨[], [], none⟩ "s" 0).reports
      = ["File not found"]
    ∧ (match_posts_with_top_comments none ⟨[], [], none⟩ "s" 0).fatal = none :=
  missing_files_degrade_gracefully 1000 ⟨[], [], none⟩ "s" 0 rfl

end SubredditDL
